import Mathlib

/-
  Verification development for the degen-poker repository.

  The hand engine itself (dealHand, applyAction, endOfHandPayout,
  determineDoubleBoardWinners, imported by apps/engine/src/index.ts from
  "./logic.js") is not among the provided sources; the definitions below that
  embed it are modelled from the specification and carry a doc comment that
  starts with "Modelled from the spec:".  The HTTP route handlers of
  apps/engine/src/index.ts are among the sources and are embedded directly,
  with persistence (supabase tables) represented as explicit state records.

  Cards are represented as natural numbers, seats as natural numbers; chip
  amounts are natural numbers.  All definitions are executable.
-/

namespace DegenPoker

/-- Betting street of a hand, per the spec state machine
Preflop/Flop/Turn/River. -/
inductive Street
  | preflop
  | flop
  | turn
  | river
deriving DecidableEq, Inhabited

/-- The closed set of player action kinds accepted by the engine, matching
the ACTIONS array of apps/engine/src/index.ts. -/
inductive PAction
  | fold
  | check
  | call
  | bet
  | raise
  | allin
deriving DecidableEq, Inhabited

/-- Per-seat player row state: chip stack, wager committed this street,
folded flag, all-in flag, and whether the seat has acted since the last
bet or raise of the street. -/
structure PlayerSt where
  stack : Nat
  bet : Nat
  folded : Bool
  allIn : Bool
  acted : Bool
deriving DecidableEq, Inhabited

/-- Room configuration relevant to the engine: the occupied seats in
clockwise order, blind sizes and the button seat. -/
structure Cfg where
  seats : List Nat
  smallBlind : Nat
  bigBlind : Nat
  button : Nat
deriving DecidableEq, Inhabited

/-- Hand state row: street, pot, bet-to-call, minimum raise increment,
seat whose turn it is, append-only action history and the board card
prefixes revealed so far. -/
structure HandSt where
  street : Street
  pot : Nat
  currentBet : Nat
  minRaise : Nat
  actor : Nat
  history : List (Nat × PAction)
  revealed1 : List Nat
  revealed2 : List Nat
deriving DecidableEq, Inhabited

/-- Engine-level validation errors, per the spec error taxonomy. -/
inductive EngineErr
  | outOfTurn
  | illegalAction
deriving DecidableEq, Inhabited

/-- Result snapshot returned by the action processor: optional error,
updated players and hand state, completion flag, and on completion the
winner set and pot amount reported to the caller. -/
structure Outcome where
  error : Option EngineErr
  players : Nat → PlayerSt
  hand : HandSt
  handCompleted : Bool
  autoWinners : Option (List Nat)
  potAwarded : Option Nat

/-- A seat is eligible to act when it has neither folded nor gone all-in. -/
def eligible (p : PlayerSt) : Bool := !p.folded && !p.allIn

/-- Seats in clockwise order starting immediately after seat a. -/
def rotatedAfter (cfg : Cfg) (a : Nat) : List Nat :=
  let i := cfg.seats.indexOf a
  cfg.seats.drop (i + 1) ++ cfg.seats.take (i + 1)

/-- Next seat clockwise from a (a itself if the room is empty). -/
def nextSeatFrom (cfg : Cfg) (a : Nat) : Nat :=
  (rotatedAfter cfg a).head?.getD a

/-- Next non-folded, non-all-in seat clockwise from a. -/
def nextEligibleFrom (cfg : Cfg) (ps : Nat → PlayerSt) (a : Nat) : Nat :=
  ((rotatedAfter cfg a).find? (fun s => eligible (ps s))).getD a

/-- Seats that have not folded. -/
def activeSeats (cfg : Cfg) (ps : Nat → PlayerSt) : List Nat :=
  cfg.seats.filter (fun s => !(ps s).folded)

/-- A street is closed when every seat has folded, is all-in, or has acted
and matched the bet-to-call. -/
def streetClosed (cfg : Cfg) (ps : Nat → PlayerSt) (hand : HandSt) : Bool :=
  cfg.seats.all (fun s =>
    (ps s).folded || (ps s).allIn || ((ps s).acted && (ps s).bet == hand.currentBet))

/-- Number of board cards revealed on each street. -/
def revealCount : Street → Nat
  | .preflop => 0
  | .flop => 3
  | .turn => 4
  | .river => 5

/-- Successor street (river is terminal). -/
def nextStreet : Street → Street
  | .preflop => .flop
  | .flop => .turn
  | .turn => .river
  | .river => .river

/-- Reset per-street wagers and acted flags when a street advances. -/
def resetForStreet (ps : Nat → PlayerSt) : Nat → PlayerSt :=
  fun s => { ps s with bet := 0, acted := false }

/-- Advance one street: reset wagers, zero the bet-to-call, restore the
minimum raise to the big blind, hand the action to the first eligible seat
after the button and reveal the next board prefix from the secret boards. -/
def advanceOne (cfg : Cfg) (fb1 fb2 : List Nat) (ps : Nat → PlayerSt) (hand : HandSt) :
    (Nat → PlayerSt) × HandSt :=
  let ps2 := resetForStreet ps
  let st2 := nextStreet hand.street
  (ps2,
    { hand with
      street := st2
      currentBet := 0
      minRaise := cfg.bigBlind
      actor := nextEligibleFrom cfg ps2 cfg.button
      revealed1 := fb1.take (revealCount st2)
      revealed2 := fb2.take (revealCount st2) })

/-- Outcome reported when the hand completes: completion flag set, the
non-folded seats reported as winners and the pot reported as awarded. -/
def completeOutcome (cfg : Cfg) (ps : Nat → PlayerSt) (hand : HandSt) : Outcome :=
  { error := none
    players := ps
    hand := hand
    handCompleted := true
    autoWinners := some (activeSeats cfg ps)
    potAwarded := some hand.pot }

/-- Outcome reported when the hand continues. -/
def continueOutcome (ps : Nat → PlayerSt) (hand : HandSt) : Outcome :=
  { error := none
    players := ps
    hand := hand
    handCompleted := false
    autoWinners := none
    potAwarded := none }

/-- Outcome reported when the action is rejected: snapshots unchanged. -/
def errOutcome (e : EngineErr) (ps : Nat → PlayerSt) (hand : HandSt) : Outcome :=
  { error := some e
    players := ps
    hand := hand
    handCompleted := false
    autoWinners := none
    potAwarded := none }

/-- Modelled from the spec: after a street closes, keep advancing streets
(dealing from the pre-computed secret boards) while no eligible actor
remains, completing at the river.  The fuel bounds the number of streets. -/
def runOut (cfg : Cfg) (fb1 fb2 : List Nat) :
    Nat → (Nat → PlayerSt) → HandSt → Outcome
  | 0, ps, hand => completeOutcome cfg ps hand
  | fuel + 1, ps, hand =>
    if streetClosed cfg ps hand then
      if hand.street = .river then completeOutcome cfg ps hand
      else
        runOut cfg fb1 fb2 fuel (advanceOne cfg fb1 fb2 ps hand).1
          (advanceOne cfg fb1 fb2 ps hand).2
    else continueOutcome ps hand

/-- Modelled from the spec: bookkeeping after an accepted action.  If all
but one player have folded the hand completes immediately; if the street
closed the hand advances (possibly through to completion at the river);
otherwise the action passes to the next eligible seat clockwise. -/
def afterAction (cfg : Cfg) (fb1 fb2 : List Nat) (seat : Nat)
    (ps : Nat → PlayerSt) (hand : HandSt) : Outcome :=
  if (activeSeats cfg ps).length ≤ 1 then completeOutcome cfg ps hand
  else if streetClosed cfg ps hand then runOut cfg fb1 fb2 4 ps hand
  else continueOutcome ps { hand with actor := nextEligibleFrom cfg ps seat }

/-- Modelled from the spec: commit a bet or raise to street total t.  The
acting seat pays the difference to its current wager, the bet-to-call and
minimum raise update, and all other seats have their acted flag cleared
(the action reopens). -/
def raiseTo (cfg : Cfg) (fb1 fb2 : List Nat) (seat : Nat)
    (ps : Nat → PlayerSt) (hand : HandSt) (hist : List (Nat × PAction)) (t : Nat) : Outcome :=
  let p := ps seat
  let pay := t - p.bet
  let p2 : PlayerSt :=
    { p with stack := p.stack - pay, bet := t, acted := true, allIn := decide (p.stack = pay) }
  let ps2 : Nat → PlayerSt := fun s => if s = seat then p2 else { ps s with acted := false }
  afterAction cfg fb1 fb2 seat ps2
    { hand with
      pot := hand.pot + pay
      currentBet := t
      minRaise := t - hand.currentBet
      history := hist }

/-- Modelled from the spec: the betting state machine
applyAction(state, seat, actionType, amount).  Validates turn order and
per-action legality, debits wagers from the acting stack into the pot,
stamps the action into the history and delegates street advancement and
completion to afterAction.  Mirrors the collaborator contract
applyAction of apps/engine/src/logic.js, which is not among the sources. -/
def applyAction (cfg : Cfg) (fb1 fb2 : List Nat) (ps : Nat → PlayerSt) (hand : HandSt)
    (seat : Nat) (act : PAction) (amt : Option Nat) : Outcome :=
  if ¬ (seat = hand.actor ∧ seat ∈ cfg.seats) then errOutcome .outOfTurn ps hand
  else if (ps seat).folded ∨ (ps seat).allIn then errOutcome .outOfTurn ps hand
  else
    let p := ps seat
    let hist := hand.history ++ [(seat, act)]
    match act with
    | .fold =>
      let ps2 : Nat → PlayerSt :=
        fun s => if s = seat then { p with folded := true, acted := true } else ps s
      afterAction cfg fb1 fb2 seat ps2 { hand with history := hist }
    | .check =>
      if p.bet = hand.currentBet then
        let ps2 : Nat → PlayerSt :=
          fun s => if s = seat then { p with acted := true } else ps s
        afterAction cfg fb1 fb2 seat ps2 { hand with history := hist }
      else errOutcome .illegalAction ps hand
    | .call =>
      if hand.currentBet ≤ p.bet then errOutcome .illegalAction ps hand
      else
        let gap := hand.currentBet - p.bet
        let pay := min gap p.stack
        let ps2 : Nat → PlayerSt :=
          fun s =>
            if s = seat then
              { p with
                stack := p.stack - pay
                bet := p.bet + pay
                allIn := decide (p.stack ≤ gap)
                acted := true }
            else ps s
        afterAction cfg fb1 fb2 seat ps2 { hand with pot := hand.pot + pay, history := hist }
    | .bet =>
      match amt with
      | none => errOutcome .illegalAction ps hand
      | some t =>
        if hand.currentBet = 0 ∧ cfg.bigBlind ≤ t ∧ p.bet < t ∧ t - p.bet ≤ p.stack then
          raiseTo cfg fb1 fb2 seat ps hand hist t
        else errOutcome .illegalAction ps hand
    | .raise =>
      match amt with
      | none => errOutcome .illegalAction ps hand
      | some t =>
        if 0 < hand.currentBet ∧ hand.currentBet + hand.minRaise ≤ t ∧ p.bet < t ∧
            t - p.bet ≤ p.stack then
          raiseTo cfg fb1 fb2 seat ps hand hist t
        else errOutcome .illegalAction ps hand
    | .allin =>
      let pay := p.stack
      let tot := p.bet + pay
      if hand.currentBet < tot then
        if hand.minRaise ≤ tot - hand.currentBet then
          let p2 : PlayerSt := { p with stack := 0, bet := tot, allIn := true, acted := true }
          let ps2 : Nat → PlayerSt :=
            fun s => if s = seat then p2 else { ps s with acted := false }
          afterAction cfg fb1 fb2 seat ps2
            { hand with
              pot := hand.pot + pay
              currentBet := tot
              minRaise := tot - hand.currentBet
              history := hist }
        else
          let ps2 : Nat → PlayerSt :=
            fun s =>
              if s = seat then { p with stack := 0, bet := tot, allIn := true, acted := true }
              else ps s
          afterAction cfg fb1 fb2 seat ps2
            { hand with pot := hand.pot + pay, currentBet := tot, history := hist }
      else
        let ps2 : Nat → PlayerSt :=
          fun s =>
            if s = seat then { p with stack := 0, bet := tot, allIn := true, acted := true }
            else ps s
        afterAction cfg fb1 fb2 seat ps2 { hand with pot := hand.pot + pay, history := hist }

/-- Sum of the chip stacks over the seated players. -/
def stackSum (cfg : Cfg) (ps : Nat → PlayerSt) : Nat :=
  (cfg.seats.map (fun s => (ps s).stack)).sum

/-- Total chips in play: stacks plus the pot. -/
def chipTotal (cfg : Cfg) (ps : Nat → PlayerSt) (hand : HandSt) : Nat :=
  stackSum cfg ps + hand.pot

/-- Errors of the deal service, per the spec error taxonomy. -/
inductive DealErr
  | insufficientPlayers
deriving DecidableEq, Inhabited

/-- Result of a successful deal: post-blind player snapshots, the initial
hand state, the seed used, the two pre-computed secret boards, the hole
cards per seat, and the total of the forced bets posted. -/
structure DealOk where
  ps : Nat → PlayerSt
  hand : HandSt
  seed : Nat
  fb1 : List Nat
  fb2 : List Nat
  holeCards : List (Nat × List Nat)
  forced : Nat
deriving Inhabited

/-- Modelled from the spec: post a forced blind of amt from a seat, capped
at the remaining stack (the seat is all-in if the stack does not cover it);
the chips are debited from the stack. -/
def postBlind (ps : Nat → PlayerSt) (seat amt : Nat) : Nat → PlayerSt :=
  fun s =>
    if s = seat then
      { ps seat with
        stack := (ps seat).stack - min amt (ps seat).stack
        bet := (ps seat).bet + min amt (ps seat).stack
        allIn := decide ((ps seat).stack ≤ amt) }
    else ps s

/-- Modelled from the spec: hole cards dealt deterministically from the
seed.  The concrete permutation of the deck is abstracted; no verified
claim depends on card identities. -/
def holeCardsFor (seed s : Nat) : List Nat :=
  [(seed + 2 * s) % 52, (seed + 2 * s + 1) % 52]

/-- Modelled from the spec: a full five-card community board computed
deterministically from the seed (idx selects board 1 or board 2).  The
concrete permutation of the deck is abstracted. -/
def boardFromSeed (seed idx : Nat) : List Nat :=
  (List.range 5).map (fun k => (seed + 100 * (idx + 1) + k) % 52)

/-- Seat posting the small blind: one seat clockwise of the button. -/
def dealSbSeat (cfg : Cfg) : Nat := nextSeatFrom cfg cfg.button

/-- Seat posting the big blind: two seats clockwise of the button. -/
def dealBbSeat (cfg : Cfg) : Nat := nextSeatFrom cfg (dealSbSeat cfg)

/-- Small blind actually debited, capped at the posting stack. -/
def dealPaySb (cfg : Cfg) (ps0 : Nat → PlayerSt) : Nat :=
  min cfg.smallBlind (ps0 (dealSbSeat cfg)).stack

/-- Player rows after the small blind is posted. -/
def dealPs1 (cfg : Cfg) (ps0 : Nat → PlayerSt) : Nat → PlayerSt :=
  postBlind ps0 (dealSbSeat cfg) cfg.smallBlind

/-- Big blind actually debited, capped at the posting stack. -/
def dealPayBb (cfg : Cfg) (ps0 : Nat → PlayerSt) : Nat :=
  min cfg.bigBlind ((dealPs1 cfg ps0) (dealBbSeat cfg)).stack

/-- Player rows after both blinds are posted. -/
def dealPs2 (cfg : Cfg) (ps0 : Nat → PlayerSt) : Nat → PlayerSt :=
  postBlind (dealPs1 cfg ps0) (dealBbSeat cfg) cfg.bigBlind

/-- Modelled from the spec: the deal service.  Fails with
InsufficientPlayers below two seats; otherwise posts the small and big
blinds as forced wagers (stack debited, pot credited), sets the bet-to-call
to the big blind, deals hole cards and pre-computes both full boards as
secrets, revealing nothing preflop.  Mirrors dealHand of
apps/engine/src/logic.js, which is not among the sources; seed parsing
(InvalidSeed) is not modelled since the seed is already numeric here. -/
def dealHand (cfg : Cfg) (ps0 : Nat → PlayerSt) (seedOpt : Option Nat) :
    Except DealErr DealOk :=
  if cfg.seats.length < 2 then .error .insufficientPlayers
  else
    .ok
      { ps := dealPs2 cfg ps0
        hand :=
          { street := .preflop
            pot := dealPaySb cfg ps0 + dealPayBb cfg ps0
            currentBet := cfg.bigBlind
            minRaise := cfg.bigBlind
            actor := nextEligibleFrom cfg (dealPs2 cfg ps0) (dealBbSeat cfg)
            history := []
            revealed1 := []
            revealed2 := [] }
        seed := seedOpt.getD 42
        fb1 := boardFromSeed (seedOpt.getD 42) 0
        fb2 := boardFromSeed (seedOpt.getD 42) 1
        holeCards := cfg.seats.map (fun s => (s, holeCardsFor (seedOpt.getD 42) s))
        forced := dealPaySb cfg ps0 + dealPayBb cfg ps0 }

/-- An action request as accepted by the actions route of
apps/engine/src/index.ts: seat, action kind, optional amount and the
optional idempotency key of actionSchema. -/
structure ActReq where
  seat : Nat
  act : PAction
  amt : Option Nat
  key : Option Nat
deriving DecidableEq, Inhabited

/-- Engine-side snapshot threaded through a sequence of actions. -/
structure EngSt where
  ps : Nat → PlayerSt
  hand : HandSt
  finished : Bool

/-- One engine step: a rejected action leaves the snapshot unchanged, an
accepted action moves to the returned snapshot, and a completed hand
accepts no further actions. -/
def engineStep (cfg : Cfg) (fb1 fb2 : List Nat) (st : EngSt) (r : ActReq) : EngSt :=
  if st.finished then st
  else if (applyAction cfg fb1 fb2 st.ps st.hand r.seat r.act r.amt).error.isSome then st
  else
    { ps := (applyAction cfg fb1 fb2 st.ps st.hand r.seat r.act r.amt).players
      hand := (applyAction cfg fb1 fb2 st.ps st.hand r.seat r.act r.amt).hand
      finished := (applyAction cfg fb1 fb2 st.ps st.hand r.seat r.act r.amt).handCompleted }

/-- Fold a sequence of action requests through the engine. -/
def applyActions (cfg : Cfg) (fb1 fb2 : List Nat) (st : EngSt) (reqs : List ActReq) : EngSt :=
  reqs.foldl (engineStep cfg fb1 fb2) st

/-- Modelled from the spec: distribute an even share q to each seat, with
the first r seats in order receiving one extra odd chip. -/
def distrib : List Nat → Nat → Nat → List (Nat × Nat)
  | [], _, _ => []
  | s :: rest, q, 0 => (s, q) :: distrib rest q 0
  | s :: rest, q, r + 1 => (s, q + 1) :: distrib rest q r

/-- Modelled from the spec: split an amount evenly among winners, odd
chips assigned one per seat from the front of the winner list. -/
def splitAmong (winners : List Nat) (amt : Nat) : List (Nat × Nat) :=
  distrib winners (amt / winners.length) (amt % winners.length)

/-- Merge a payout entry into an accumulating seat-to-amount mapping,
adding to the first entry with the same seat or appending a new one. -/
def addPayout : List (Nat × Nat) → (Nat × Nat) → List (Nat × Nat)
  | [], p => [p]
  | q :: rest, p =>
    if q.1 = p.1 then (q.1, q.2 + p.2) :: rest else q :: addPayout rest p

/-- Modelled from the spec: the payout calculator
payout(board1Winners, board2Winners, potAwarded).  The pot is split 50/50
between the two boards (board 1 taking the odd chip of an odd pot), each
half is split evenly among that board winners with odd chips assigned one
per seat, and the result is merged into a seat-to-amount mapping.  Mirrors
endOfHandPayout of apps/engine/src/logic.js, which is not among the
sources. -/
def endOfHandPayout (w1 w2 : List Nat) (pot : Nat) : List (Nat × Nat) :=
  ((splitAmong w1 (pot - pot / 2)) ++ (splitAmong w2 (pot / 2))).foldl addPayout []

/-- Modelled from the spec: the best rank over the given hands for one
board (the ranking function itself is a parameter: no verified claim
depends on the poker hand order beyond it inducing winner sets). -/
def bestRank (rank : List Nat → List Nat → Nat) (hands : List (Nat × List Nat))
    (b : List Nat) : Nat :=
  (hands.map (fun h => rank h.2 b)).foldr max 0

/-- Modelled from the spec: seats whose hand attains the best rank against
the board (ties produce multiple winners). -/
def boardWinners (rank : List Nat → List Nat → Nat) (hands : List (Nat × List Nat))
    (b : List Nat) : List Nat :=
  (hands.filter (fun h => rank h.2 b == bestRank rank hands b)).map (fun h => h.1)

/-- Modelled from the spec: the multi-board showdown evaluator
evaluateShowdown(activeHands, board1, board2), run independently against
each board.  Mirrors determineDoubleBoardWinners of
apps/engine/src/logic.js, which is not among the sources. -/
def determineDoubleBoardWinners (rank : List Nat → List Nat → Nat)
    (hands : List (Nat × List Nat)) (b1 b2 : List Nat) : List Nat × List Nat :=
  (boardWinners rank hands b1, boardWinners rank hands b2)

/-- Route-level errors surfaced by the actions route of
apps/engine/src/index.ts. -/
inductive RouteErr
  | noActiveHand
  | missingSecrets
  | engine (e : EngineErr)
deriving DecidableEq, Inhabited

/-- Stored state visible to the actions route: the room player rows, the
latest game-state row if a hand is active, the secrets row, the hole-card
rows, the player_actions request log and the hand_results rows. -/
structure DB where
  ps : Nat → PlayerSt
  gameState : Option HandSt
  secret : Option (Nat × List Nat × List Nat)
  playerHands : List (Nat × List Nat)
  actionLog : List (Nat × PAction × Option Nat × Bool)
  handResults : List (Nat × List Nat)

/-- Credit computed payouts to the player rows, as the creditUpdates block
of apps/engine/src/index.ts does (chip_stack plus the credited amount for
each payout entry). -/
def creditPayouts (ps : Nat → PlayerSt) (pays : List (Nat × Nat)) : Nat → PlayerSt :=
  pays.foldl
    (fun acc q => fun s => if s = q.1 then { acc q.1 with stack := (acc q.1).stack + q.2 } else acc s)
    ps

/-- Hole-card rows of seated players that have not folded, as filtered by
the activeHands computation of apps/engine/src/index.ts before showdown
evaluation. -/
def activeHandsOf (cfg : Cfg) (ps : Nat → PlayerSt) (rows : List (Nat × List Nat)) :
    List (Nat × List Nat) :=
  rows.filter (fun hrow => cfg.seats.contains hrow.1 && !(ps hrow.1).folded)

/-- Result of the actions route: the stored state afterwards, whether the
request succeeded, the surfaced error, and whether the winner
determination (hand evaluation) step was invoked. -/
structure ActionRes where
  db : DB
  ok : Bool
  error : Option RouteErr
  usedEvaluator : Bool

/-- The POST /rooms/:roomId/actions handler of apps/engine/src/index.ts
over the stored state: rejects when no game-state row exists or the
secrets row is missing; otherwise applies the engine action, always
records the request in the player_actions log (the idempotency key of the
request is never consulted), returns the engine error without further
writes when the action is rejected, and on completion runs winner
determination and payouts inside the branch guarded by the truthiness of
autoWinners and potAwarded, writes hand_results, credits the payouts and
deletes the game-state row. -/
def actionsRoute (cfg : Cfg) (rank : List Nat → List Nat → Nat) (db : DB) (r : ActReq) :
    ActionRes :=
  match db.gameState with
  | none => { db := db, ok := false, error := some .noActiveHand, usedEvaluator := false }
  | some hand =>
    match db.secret with
    | none => { db := db, ok := false, error := some .missingSecrets, usedEvaluator := false }
    | some sec =>
      let o := applyAction cfg sec.2.1 sec.2.2 db.ps hand r.seat r.act r.amt
      let logged := db.actionLog ++ [(r.seat, r.act, r.amt, o.error.isNone)]
      match o.error with
      | some e =>
        { db := { db with actionLog := logged }
          ok := false
          error := some (.engine e)
          usedEvaluator := false }
      | none =>
        let db1 := { db with actionLog := logged, ps := o.players, gameState := some o.hand }
        if o.handCompleted then
          match o.autoWinners, o.potAwarded with
          | some _, some pot =>
            if pot ≠ 0 then
              let ah := activeHandsOf cfg o.players db.playerHands
              let w := determineDoubleBoardWinners rank ah sec.2.1 sec.2.2
              let pays := endOfHandPayout w.1 w.2 pot
              { db :=
                  { db1 with
                    ps := creditPayouts o.players pays
                    handResults := db1.handResults ++ [(pot, (w.1 ++ w.2).dedup)]
                    gameState := none }
                ok := true
                error := none
                usedEvaluator := true }
            else
              { db := { db1 with gameState := none }
                ok := true
                error := none
                usedEvaluator := false }
          | _, _ =>
            { db := { db1 with gameState := none }
              ok := true
              error := none
              usedEvaluator := false }
        else { db := db1, ok := true, error := none, usedEvaluator := false }

/-- Storage steps of the start-hand route that can fail, in the order
apps/engine/src/index.ts performs them. -/
inductive DealStep
  | atState
  | atSecret
  | atHands
  | atPlayers
deriving DecidableEq, Inhabited

/-- Stored state visible to the start-hand route: player rows, the
game-state, secrets and hole-card tables keyed by game-state id, and the
next fresh row id. -/
structure DealDB where
  ps : Nat → PlayerSt
  gameStates : List (Nat × HandSt)
  secrets : List (Nat × Nat × List Nat × List Nat)
  handRows : List (Nat × Nat × List Nat)
  nextId : Nat

/-- Result of the start-hand route: stored state, success flag, error
flag, and the 201 response body {gameState id, deckSeed} returned to the
HTTP caller on success. -/
structure StartRes where
  db : DealDB
  ok : Bool
  failed : Bool
  resBody : Option (Nat × Nat)

/-- The rollback block of the start-hand route catch handler: delete the
hole-card rows, the secrets row and the game-state row of the game state
created in this request. -/
def rollbackDeal (gid : Nat) (db : DealDB) : DealDB :=
  { db with
    handRows := db.handRows.filter (fun row => row.1 != gid)
    secrets := db.secrets.filter (fun row => row.1 != gid)
    gameStates := db.gameStates.filter (fun row => row.1 != gid) }

/-- The POST /rooms/:roomId/start-hand handler of
apps/engine/src/index.ts over the stored state, with failure injection:
failAt names the storage step whose write fails.  The handler deals,
inserts the game-state row, then the secrets row, then the hole-card
rows, then upserts the player rows; any failure after the game-state row
was created triggers the rollback block, and the 201 response body
includes the game-state row and the deck seed used. -/
def startHandRoute (cfg : Cfg) (db : DealDB) (seedOpt : Option Nat)
    (failAt : Option DealStep) : StartRes :=
  match dealHand cfg db.ps seedOpt with
  | .error _ => { db := db, ok := false, failed := true, resBody := none }
  | .ok d =>
    if failAt = some .atState then { db := db, ok := false, failed := true, resBody := none }
    else
      let gid := db.nextId
      let db1 := { db with gameStates := (gid, d.hand) :: db.gameStates, nextId := gid + 1 }
      if failAt = some .atSecret then
        { db := rollbackDeal gid db1, ok := false, failed := true, resBody := none }
      else
        let db2 := { db1 with secrets := (gid, d.seed, d.fb1, d.fb2) :: db1.secrets }
        if failAt = some .atHands then
          { db := rollbackDeal gid db2, ok := false, failed := true, resBody := none }
        else
          let db3 :=
            { db2 with handRows := db2.handRows ++ d.holeCards.map (fun h => (gid, h.1, h.2)) }
          if failAt = some .atPlayers then
            { db := rollbackDeal gid db3, ok := false, failed := true, resBody := none }
          else
            { db := { db3 with ps := d.ps }
              ok := true
              failed := false
              resBody := some (gid, d.seed) }

/-- Game modes relevant to the visibility endpoint. -/
inductive GameMode
  | indianPoker
  | doubleBoardPlo
  | standard
deriving DecidableEq, Inhabited

/-- The SQL function get_indian_poker_visible_cards of migration
part_003: returns, for each player_hands row of the game state whose seat
differs from the requesting seat, that seat together with the first card
of its stored cards (the ORDER BY seat_number of the SQL, a presentation
detail, is not modelled). -/
def get_indian_poker_visible_cards (hands : List (Nat × List Nat)) (reqSeat : Nat) :
    List (Nat × Option Nat) :=
  (hands.filter (fun h => h.1 != reqSeat)).map (fun h => (h.1, h.2.head?))

/-- Request context of the visibility endpoint: the authenticated user if
any, the game mode of the room, the room_players row of that user (seat
and spectator flag), the seat query parameter, whether a player_hands row
exists for the user in this hand, and the hole-card rows of the hand. -/
structure VisCtx where
  user : Option Nat
  gameMode : GameMode
  playerRow : Option (Nat × Bool)
  seatParam : Option Nat
  myHandRow : Bool
  hands : List (Nat × List Nat)

/-- Response of the visibility endpoint: unauthorized (401), forbidden
(403), or the visible cards of the other seats. -/
inductive VisRes
  | unauthorized
  | forbidden
  | ok (cards : List (Nat × Option Nat))
deriving DecidableEq, Inhabited

/-- Modelled from the spec: the engine route
GET /rooms/:roomId/game-states/:gameStateId/indian-poker-cards is not
among the sources (only its integration test is); its access gate is
modelled from that test and the spec reveal-others-not-your-own
projection: reject unauthenticated users, users without a seat,
spectators, seat-parameter mismatches and users without a hand row, and
otherwise serve the server-enforced projection
get_indian_poker_visible_cards for the requesting seat. -/
def indianPokerCardsRoute (c : VisCtx) : VisRes :=
  match c.user with
  | none => .unauthorized
  | some _ =>
    if c.gameMode ≠ .indianPoker then .forbidden
    else
      match c.playerRow with
      | none => .forbidden
      | some row =>
        if row.2 then .forbidden
        else if (match c.seatParam with | some q => q != row.1 | none => false : Bool) then
          .forbidden
        else if ¬ c.myHandRow then .forbidden
        else .ok (get_indian_poker_visible_cards c.hands row.1)

/-- Concrete two-seat room used for witnesses: blinds 1/2, button on
seat 0. -/
def demoCfg : Cfg := { seats := [0, 1], smallBlind := 1, bigBlind := 2, button := 0 }

/-- Concrete pre-deal player rows: every seat holds 100 chips. -/
def demoPs0 : Nat → PlayerSt :=
  fun _ => { stack := 100, bet := 0, folded := false, allIn := false, acted := false }

/-- Concrete successful deal of the demo room with seed 7. -/
def demoDeal : DealOk :=
  match dealHand demoCfg demoPs0 (some 7) with
  | .ok d => d
  | .error _ => default

/-- Concrete ranking function for witnesses (the claims under
verification are independent of the ranking). -/
def demoRank : List Nat → List Nat → Nat := fun _ _ => 0

/-- Stored state right after the demo deal: active game-state row,
secrets row and hole-card rows present, empty logs. -/
def demoDB : DB :=
  { ps := demoDeal.ps
    gameState := some demoDeal.hand
    secret := some (demoDeal.seed, demoDeal.fb1, demoDeal.fb2)
    playerHands := demoDeal.holeCards
    actionLog := []
    handResults := [] }

/-- A call by the small blind, carrying idempotency key 5. -/
def demoCallReq : ActReq := { seat := 1, act := .call, amt := none, key := some 5 }

/-- A fold by the small blind, folding the hand out to the big blind. -/
def demoFoldReq : ActReq := { seat := 1, act := .fold, amt := none, key := none }

/-- An out-of-turn check by the big blind while the small blind is to
act. -/
def demoOutOfTurnReq : ActReq := { seat := 0, act := .check, amt := none, key := none }

/-- Result of submitting the demo call once. -/
def demoCallOnce : ActionRes := actionsRoute demoCfg demoRank demoDB demoCallReq

/-- Result of submitting the identical demo call a second time, as a
network retry with the same idempotency key would. -/
def demoCallTwice : ActionRes := actionsRoute demoCfg demoRank demoCallOnce.db demoCallReq

/-- Result of the demo fold, which folds the hand out. -/
def demoFoldRes : ActionRes := actionsRoute demoCfg demoRank demoDB demoFoldReq

/-- Empty stored state for the start-hand route demos. -/
def demoDealDB : DealDB :=
  { ps := demoPs0, gameStates := [], secrets := [], handRows := [], nextId := 0 }

/-- A visibility request by the seated, non-spectating player at seat 1 of
a three-handed Indian Poker hand. -/
def demoVisCtx : VisCtx :=
  { user := some 9
    gameMode := .indianPoker
    playerRow := some (1, false)
    seatParam := some 1
    myHandRow := true
    hands := [(0, [10]), (1, [11]), (2, [12])] }

/-- Updating one point of a function changes a Nodup-indexed sum by
exactly the change at that point. -/
theorem sum_map_update (l : List Nat) (a : Nat) (f g : Nat → Nat)
    (hnd : l.Nodup) (ha : a ∈ l) (h : ∀ s, s ≠ a → g s = f s) :
    (l.map g).sum + f a = (l.map f).sum + g a := by
  induction l with
  | nil => cases ha
  | cons b rest ih =>
    rcases List.mem_cons.mp ha with hba | ha2
    · subst hba
      have hrest : rest.map g = rest.map f := by
        apply List.map_congr_left
        intro s hs
        exact h s (fun hsa => (List.nodup_cons.mp hnd).1 (hsa ▸ hs))
      simp only [List.map_cons, List.sum_cons, hrest]
      omega
    · have hb : g b = f b := h b (fun hba => (List.nodup_cons.mp hnd).1 (hba ▸ ha2))
      have hih := ih (List.nodup_cons.mp hnd).2 ha2
      simp only [List.map_cons, List.sum_cons, hb]
      omega

/-- Stack sums only depend on the stack fields. -/
theorem stackSum_congr (cfg : Cfg) (ps ps2 : Nat → PlayerSt)
    (h : ∀ s, (ps2 s).stack = (ps s).stack) : stackSum cfg ps2 = stackSum cfg ps :=
  congrArg List.sum (List.map_congr_left (fun s _ => h s))

/-- Moving pay chips from one seated stack into the pot preserves the chip
total. -/
theorem wager_chipTotal (cfg : Cfg) (hnd : cfg.seats.Nodup) (ps ps2 : Nat → PlayerSt)
    (seat pay pot : Nat) (hmem : seat ∈ cfg.seats)
    (hseat : (ps2 seat).stack + pay = (ps seat).stack)
    (hoth : ∀ s, s ≠ seat → (ps2 s).stack = (ps s).stack) :
    stackSum cfg ps2 + (pot + pay) = stackSum cfg ps + pot := by
  have h := sum_map_update cfg.seats seat (fun s => (ps s).stack) (fun s => (ps2 s).stack)
    hnd hmem (fun s hs => hoth s hs)
  dsimp only at h
  unfold stackSum
  omega

/-- Street run-out never changes any stack nor the pot. -/
theorem runOut_preserves (cfg : Cfg) (fb1 fb2 : List Nat) :
    ∀ (fuel : Nat) (ps : Nat → PlayerSt) (hand : HandSt),
      (∀ s, ((runOut cfg fb1 fb2 fuel ps hand).players s).stack = (ps s).stack) ∧
      (runOut cfg fb1 fb2 fuel ps hand).hand.pot = hand.pot := by
  intro fuel
  induction fuel with
  | zero => intro ps hand; exact ⟨fun s => rfl, rfl⟩
  | succ n ih =>
    intro ps hand
    unfold runOut
    split
    · split
      · exact ⟨fun s => rfl, rfl⟩
      · have h := ih (advanceOne cfg fb1 fb2 ps hand).1 (advanceOne cfg fb1 fb2 ps hand).2
        constructor
        · intro s
          rw [h.1 s]
          rfl
        · rw [h.2]
          rfl
    · exact ⟨fun s => rfl, rfl⟩

/-- Post-action bookkeeping (completion, street advancement, actor
rotation) never changes any stack nor the pot. -/
theorem afterAction_preserves (cfg : Cfg) (fb1 fb2 : List Nat) (seat : Nat)
    (ps : Nat → PlayerSt) (hand : HandSt) :
    (∀ s, ((afterAction cfg fb1 fb2 seat ps hand).players s).stack = (ps s).stack) ∧
    (afterAction cfg fb1 fb2 seat ps hand).hand.pot = hand.pot := by
  unfold afterAction
  split
  · exact ⟨fun s => rfl, rfl⟩
  · split
    · exact runOut_preserves cfg fb1 fb2 4 ps hand
    · exact ⟨fun s => rfl, rfl⟩

/-- Chip-total preservation for any accepted action that moves pay chips
from the acting stack into the pot and then runs post-action
bookkeeping. -/
theorem afterAction_chipTotal (cfg : Cfg) (hnd : cfg.seats.Nodup) (fb1 fb2 : List Nat)
    (seat pay : Nat) (ps ps2 : Nat → PlayerSt) (hand hand2 : HandSt)
    (hmem : seat ∈ cfg.seats)
    (hseat : (ps2 seat).stack + pay = (ps seat).stack)
    (hoth : ∀ s, s ≠ seat → (ps2 s).stack = (ps s).stack)
    (hpot : hand2.pot = hand.pot + pay) :
    chipTotal cfg (afterAction cfg fb1 fb2 seat ps2 hand2).players
      (afterAction cfg fb1 fb2 seat ps2 hand2).hand = chipTotal cfg ps hand := by
  obtain ⟨h1, h2⟩ := afterAction_preserves cfg fb1 fb2 seat ps2 hand2
  unfold chipTotal
  rw [stackSum_congr cfg ps2 _ h1, h2, hpot]
  exact wager_chipTotal cfg hnd ps ps2 seat pay hand.pot hmem hseat hoth

/-- The action processor preserves the chip total (stacks plus pot) on
every branch, accepted or rejected. -/
theorem applyAction_chipTotal (cfg : Cfg) (hnd : cfg.seats.Nodup) (fb1 fb2 : List Nat)
    (ps : Nat → PlayerSt) (hand : HandSt) (seat : Nat) (act : PAction) (amt : Option Nat) :
    chipTotal cfg (applyAction cfg fb1 fb2 ps hand seat act amt).players
      (applyAction cfg fb1 fb2 ps hand seat act amt).hand = chipTotal cfg ps hand := by
  cases act with
  | fold =>
    unfold applyAction
    dsimp only
    split
    · rfl
    · next h =>
      split
      · rfl
      · refine afterAction_chipTotal cfg hnd fb1 fb2 seat 0 ps _ hand _ (not_not.mp h).2
          ?_ ?_ ?_
        · simp
        · intro s hs; simp [hs]
        · simp
  | check =>
    unfold applyAction
    dsimp only
    split
    · rfl
    · next h =>
      split
      · rfl
      · split
        · refine afterAction_chipTotal cfg hnd fb1 fb2 seat 0 ps _ hand _ (not_not.mp h).2
            ?_ ?_ ?_
          · simp
          · intro s hs; simp [hs]
          · simp
        · rfl
  | call =>
    unfold applyAction
    dsimp only
    split
    · rfl
    · next h =>
      split
      · rfl
      · split
        · rfl
        · refine afterAction_chipTotal cfg hnd fb1 fb2 seat
            (min (hand.currentBet - (ps seat).bet) (ps seat).stack) ps _ hand _
            (not_not.mp h).2 ?_ ?_ ?_
          · simp
            try omega
          · intro s hs; simp [hs]
          · simp
  | bet =>
    cases amt with
    | none =>
      unfold applyAction
      dsimp only
      split
      · rfl
      · split
        · rfl
        · rfl
    | some t =>
      unfold applyAction
      dsimp only
      split
      · rfl
      · next h =>
        split
        · rfl
        · split
          · next h3 =>
            unfold raiseTo
            refine afterAction_chipTotal cfg hnd fb1 fb2 seat (t - (ps seat).bet) ps _ hand _
              (not_not.mp h).2 ?_ ?_ ?_
            · simp
              try omega
            · intro s hs; simp [hs]
            · simp
          · rfl
  | raise =>
    cases amt with
    | none =>
      unfold applyAction
      dsimp only
      split
      · rfl
      · split
        · rfl
        · rfl
    | some t =>
      unfold applyAction
      dsimp only
      split
      · rfl
      · next h =>
        split
        · rfl
        · split
          · next h3 =>
            unfold raiseTo
            refine afterAction_chipTotal cfg hnd fb1 fb2 seat (t - (ps seat).bet) ps _ hand _
              (not_not.mp h).2 ?_ ?_ ?_
            · simp
              try omega
            · intro s hs; simp [hs]
            · simp
          · rfl
  | allin =>
    unfold applyAction
    dsimp only
    split
    · rfl
    · next h =>
      split
      · rfl
      · split
        · split
          · refine afterAction_chipTotal cfg hnd fb1 fb2 seat ((ps seat).stack) ps _ hand _
              (not_not.mp h).2 ?_ ?_ ?_
            · simp
            · intro s hs; simp [hs]
            · simp
          · refine afterAction_chipTotal cfg hnd fb1 fb2 seat ((ps seat).stack) ps _ hand _
              (not_not.mp h).2 ?_ ?_ ?_
            · simp
            · intro s hs; simp [hs]
            · simp
        · refine afterAction_chipTotal cfg hnd fb1 fb2 seat ((ps seat).stack) ps _ hand _
            (not_not.mp h).2 ?_ ?_ ?_
          · simp
          · intro s hs; simp [hs]
          · simp

/-- No branch of the action processor ever increases any stack: stacks
decrease only by wagers. -/
theorem applyAction_stack_le (cfg : Cfg) (fb1 fb2 : List Nat) (ps : Nat → PlayerSt)
    (hand : HandSt) (seat : Nat) (act : PAction) (amt : Option Nat) (s : Nat) :
    ((applyAction cfg fb1 fb2 ps hand seat act amt).players s).stack ≤ (ps s).stack := by
  cases act with
  | fold =>
    unfold applyAction
    dsimp only
    split
    · exact le_refl _
    · split
      · exact le_refl _
      · rw [(afterAction_preserves cfg fb1 fb2 seat _ _).1 s]
        by_cases hs : s = seat <;> simp [hs]
  | check =>
    unfold applyAction
    dsimp only
    split
    · exact le_refl _
    · split
      · exact le_refl _
      · split
        · rw [(afterAction_preserves cfg fb1 fb2 seat _ _).1 s]
          by_cases hs : s = seat <;> simp [hs]
        · exact le_refl _
  | call =>
    unfold applyAction
    dsimp only
    split
    · exact le_refl _
    · split
      · exact le_refl _
      · split
        · exact le_refl _
        · rw [(afterAction_preserves cfg fb1 fb2 seat _ _).1 s]
          by_cases hs : s = seat <;> simp [hs]
  | bet =>
    cases amt with
    | none =>
      unfold applyAction
      dsimp only
      split
      · exact le_refl _
      · split
        · exact le_refl _
        · exact le_refl _
    | some t =>
      unfold applyAction
      dsimp only
      split
      · exact le_refl _
      · split
        · exact le_refl _
        · split
          · unfold raiseTo
            rw [(afterAction_preserves cfg fb1 fb2 seat _ _).1 s]
            by_cases hs : s = seat <;> simp [hs]
          · exact le_refl _
  | raise =>
    cases amt with
    | none =>
      unfold applyAction
      dsimp only
      split
      · exact le_refl _
      · split
        · exact le_refl _
        · exact le_refl _
    | some t =>
      unfold applyAction
      dsimp only
      split
      · exact le_refl _
      · split
        · exact le_refl _
        · split
          · unfold raiseTo
            rw [(afterAction_preserves cfg fb1 fb2 seat _ _).1 s]
            by_cases hs : s = seat <;> simp [hs]
          · exact le_refl _
  | allin =>
    unfold applyAction
    dsimp only
    split
    · exact le_refl _
    · split
      · exact le_refl _
      · split
        · split
          · rw [(afterAction_preserves cfg fb1 fb2 seat _ _).1 s]
            by_cases hs : s = seat <;> simp [hs]
          · rw [(afterAction_preserves cfg fb1 fb2 seat _ _).1 s]
            by_cases hs : s = seat <;> simp [hs]
        · rw [(afterAction_preserves cfg fb1 fb2 seat _ _).1 s]
          by_cases hs : s = seat <;> simp [hs]

/-- One engine step preserves the chip total. -/
theorem engineStep_chipTotal (cfg : Cfg) (hnd : cfg.seats.Nodup) (fb1 fb2 : List Nat)
    (st : EngSt) (r : ActReq) :
    chipTotal cfg (engineStep cfg fb1 fb2 st r).ps (engineStep cfg fb1 fb2 st r).hand
      = chipTotal cfg st.ps st.hand := by
  unfold engineStep
  split
  · rfl
  · split
    · rfl
    · exact applyAction_chipTotal cfg hnd fb1 fb2 st.ps st.hand r.seat r.act r.amt

/-- One engine step never increases any stack. -/
theorem engineStep_stack_le (cfg : Cfg) (fb1 fb2 : List Nat) (st : EngSt) (r : ActReq)
    (s : Nat) : ((engineStep cfg fb1 fb2 st r).ps s).stack ≤ (st.ps s).stack := by
  unfold engineStep
  split
  · exact le_refl _
  · split
    · exact le_refl _
    · exact applyAction_stack_le cfg fb1 fb2 st.ps st.hand r.seat r.act r.amt s

/-- Any sequence of engine steps preserves the chip total. -/
theorem applyActions_chipTotal (cfg : Cfg) (hnd : cfg.seats.Nodup) (fb1 fb2 : List Nat) :
    ∀ (reqs : List ActReq) (st : EngSt),
      chipTotal cfg (applyActions cfg fb1 fb2 st reqs).ps
        (applyActions cfg fb1 fb2 st reqs).hand = chipTotal cfg st.ps st.hand := by
  intro reqs
  induction reqs with
  | nil => intro st; rfl
  | cons r rest ih =>
    intro st
    show chipTotal cfg (applyActions cfg fb1 fb2 (engineStep cfg fb1 fb2 st r) rest).ps
      (applyActions cfg fb1 fb2 (engineStep cfg fb1 fb2 st r) rest).hand = _
    rw [ih (engineStep cfg fb1 fb2 st r), engineStep_chipTotal cfg hnd fb1 fb2 st r]

/-- Crediting payouts never decreases any stack: stacks increase only by
payouts. -/
theorem creditPayouts_stack_le :
    ∀ (pays : List (Nat × Nat)) (ps : Nat → PlayerSt) (s : Nat),
      (ps s).stack ≤ (creditPayouts ps pays s).stack := by
  intro pays
  induction pays with
  | nil => intro ps s; exact le_refl _
  | cons q rest ih =>
    intro ps s
    refine le_trans ?_
      (ih (fun s2 => if s2 = q.1 then { ps q.1 with stack := (ps q.1).stack + q.2 } else ps s2) s)
    by_cases hs : s = q.1
    · subst hs; simp
    · simp [hs]

/-- Every member of a rotation is a seat of the room. -/
theorem rotatedAfter_subset (cfg : Cfg) (a : Nat) :
    ∀ x ∈ rotatedAfter cfg a, x ∈ cfg.seats := by
  intro x hx
  unfold rotatedAfter at hx
  rcases List.mem_append.mp hx with h | h
  · exact List.mem_of_mem_drop h
  · exact List.mem_of_mem_take h

/-- Rotations of a nonempty seat list are nonempty. -/
theorem rotatedAfter_ne_nil (cfg : Cfg) (a : Nat) (h : cfg.seats ≠ []) :
    rotatedAfter cfg a ≠ [] := by
  unfold rotatedAfter
  intro hc
  rcases List.append_eq_nil.mp hc with ⟨_, h2⟩
  cases hs : cfg.seats with
  | nil => exact h hs
  | cons b rest => rw [hs] at h2; simp at h2

/-- The next seat clockwise of a seat is a seat of the room. -/
theorem nextSeatFrom_mem (cfg : Cfg) (a : Nat) (h : cfg.seats ≠ []) :
    nextSeatFrom cfg a ∈ cfg.seats := by
  have hsub := rotatedAfter_subset cfg a
  have hne := rotatedAfter_ne_nil cfg a h
  unfold nextSeatFrom
  cases hr : rotatedAfter cfg a with
  | nil => exact absurd hr hne
  | cons b rest =>
    simp only [List.head?, Option.getD_some]
    exact hsub b (by rw [hr]; exact List.mem_cons_self b rest)

/-- Posting a blind debits exactly the capped amount from the posting
stack. -/
theorem postBlind_stack_seat (ps : Nat → PlayerSt) (seat amt : Nat) :
    ((postBlind ps seat amt) seat).stack + min amt (ps seat).stack = (ps seat).stack := by
  simp [postBlind]
  try omega

/-- Posting a blind leaves every other stack unchanged. -/
theorem postBlind_stack_other (ps : Nat → PlayerSt) (seat amt s : Nat) (h : s ≠ seat) :
    ((postBlind ps seat amt) s).stack = (ps s).stack := by
  simp [postBlind, h]

/-- The deal conserves chips: the dealt stacks plus the forced bets equal
the pre-deal stacks, and the initial pot is exactly the forced bets. -/
theorem dealHand_conservation (cfg : Cfg) (hnd : cfg.seats.Nodup) (ps0 : Nat → PlayerSt)
    (seedOpt : Option Nat) (d : DealOk) (hdeal : dealHand cfg ps0 seedOpt = .ok d) :
    stackSum cfg d.ps + d.forced = stackSum cfg ps0 ∧ d.hand.pot = d.forced := by
  unfold dealHand at hdeal
  split at hdeal
  · cases hdeal
  · next hlen =>
    have hne : cfg.seats ≠ [] := by
      intro hc
      rw [hc] at hlen
      simp at hlen
    have hsb : dealSbSeat cfg ∈ cfg.seats := nextSeatFrom_mem cfg cfg.button hne
    have hbb : dealBbSeat cfg ∈ cfg.seats := nextSeatFrom_mem cfg (dealSbSeat cfg) hne
    have h1 : stackSum cfg (dealPs1 cfg ps0) + (0 + dealPaySb cfg ps0)
        = stackSum cfg ps0 + 0 :=
      wager_chipTotal cfg hnd ps0 (dealPs1 cfg ps0) (dealSbSeat cfg) (dealPaySb cfg ps0) 0 hsb
        (postBlind_stack_seat ps0 (dealSbSeat cfg) cfg.smallBlind)
        (fun s hs => postBlind_stack_other ps0 (dealSbSeat cfg) cfg.smallBlind s hs)
    have h2 : stackSum cfg (dealPs2 cfg ps0) + (0 + dealPayBb cfg ps0)
        = stackSum cfg (dealPs1 cfg ps0) + 0 :=
      wager_chipTotal cfg hnd (dealPs1 cfg ps0) (dealPs2 cfg ps0) (dealBbSeat cfg)
        (dealPayBb cfg ps0) 0 hbb
        (postBlind_stack_seat (dealPs1 cfg ps0) (dealBbSeat cfg) cfg.bigBlind)
        (fun s hs => postBlind_stack_other (dealPs1 cfg ps0) (dealBbSeat cfg) cfg.bigBlind s hs)
    injection hdeal with hd
    subst hd
    refine ⟨?_, rfl⟩
    show stackSum cfg (dealPs2 cfg ps0) + (dealPaySb cfg ps0 + dealPayBb cfg ps0)
      = stackSum cfg ps0
    omega

/-- Distributing q plus r odd chips over a seat list sums to length times
q plus r (capped at the length). -/
theorem distrib_sum : ∀ (seats : List Nat) (q r : Nat),
    ((distrib seats q r).map (fun p => p.2)).sum = seats.length * q + min r seats.length := by
  intro seats
  induction seats with
  | nil => intro q r; simp [distrib]
  | cons s rest ih =>
    intro q r
    cases r with
    | zero =>
      simp only [distrib, List.map_cons, List.sum_cons, ih q 0, List.length_cons,
        Nat.succ_mul, Nat.min_zero]
      omega
    | succ r2 =>
      simp only [distrib, List.map_cons, List.sum_cons, ih q r2, List.length_cons,
        Nat.succ_mul, Nat.succ_min_succ]
      omega

/-- The seats of a distribution are exactly the winner list. -/
theorem distrib_fst : ∀ (seats : List Nat) (q r : Nat),
    (distrib seats q r).map (fun p => p.1) = seats := by
  intro seats
  induction seats with
  | nil => intro q r; simp [distrib]
  | cons s rest ih =>
    intro q r
    cases r with
    | zero => simp [distrib, ih q 0]
    | succ r2 => simp [distrib, ih q r2]

/-- Every distributed amount is the even share or the even share plus one
odd chip. -/
theorem distrib_amounts : ∀ (seats : List Nat) (q r : Nat),
    ∀ p ∈ distrib seats q r, p.2 = q ∨ p.2 = q + 1 := by
  intro seats
  induction seats with
  | nil => intro q r p hp; cases hp
  | cons s rest ih =>
    intro q r p hp
    cases r with
    | zero =>
      rcases List.mem_cons.mp hp with h | h
      · left; rw [h]
      · exact ih q 0 p h
    | succ r2 =>
      rcases List.mem_cons.mp hp with h | h
      · right; rw [h]
      · exact ih q r2 p h

/-- An even split over a nonempty winner list distributes the amount
exactly. -/
theorem splitAmong_sum (winners : List Nat) (amt : Nat) (h : winners ≠ []) :
    ((splitAmong winners amt).map (fun p => p.2)).sum = amt := by
  unfold splitAmong
  rw [distrib_sum]
  have hlen : 0 < winners.length := List.length_pos.mpr h
  have hmod : amt % winners.length < winners.length := Nat.mod_lt _ hlen
  rw [min_eq_left (le_of_lt hmod)]
  exact Nat.div_add_mod amt winners.length

/-- Merging one payout entry adds exactly its amount to the mapping
total. -/
theorem addPayout_sum : ∀ (acc : List (Nat × Nat)) (p : Nat × Nat),
    ((addPayout acc p).map (fun q => q.2)).sum = (acc.map (fun q => q.2)).sum + p.2 := by
  intro acc
  induction acc with
  | nil => intro p; simp [addPayout]
  | cons q rest ih =>
    intro p
    unfold addPayout
    split
    · simp only [List.map_cons, List.sum_cons]
      omega
    · simp only [List.map_cons, List.sum_cons, ih p]
      omega

/-- Folding payout entries into a mapping preserves the total amount. -/
theorem foldl_addPayout_sum : ∀ (l acc : List (Nat × Nat)),
    ((l.foldl addPayout acc).map (fun q => q.2)).sum
      = (acc.map (fun q => q.2)).sum + (l.map (fun q => q.2)).sum := by
  intro l
  induction l with
  | nil => intro acc; simp
  | cons p rest ih =>
    intro acc
    show ((rest.foldl addPayout (addPayout acc p)).map (fun q => q.2)).sum = _
    rw [ih (addPayout acc p), addPayout_sum]
    simp only [List.map_cons, List.sum_cons]
    omega

/-- Merging an entry with a fresh seat appends it. -/
theorem addPayout_not_mem : ∀ (acc : List (Nat × Nat)) (p : Nat × Nat),
    p.1 ∉ acc.map (fun q => q.1) → addPayout acc p = acc ++ [p] := by
  intro acc
  induction acc with
  | nil => intro p _; rfl
  | cons q rest ih =>
    intro p hp
    simp only [List.map_cons, List.mem_cons, not_or] at hp
    unfold addPayout
    rw [if_neg (fun hqp => hp.1 hqp.symm), ih p hp.2]
    rfl

/-- Folding entries with pairwise-distinct seats into a mapping returns
them unchanged. -/
theorem foldl_addPayout_nodup : ∀ (l acc : List (Nat × Nat)),
    (((acc ++ l).map (fun q => q.1)).Nodup) → l.foldl addPayout acc = acc ++ l := by
  intro l
  induction l with
  | nil => intro acc _; simp
  | cons p rest ih =>
    intro acc hnd
    show rest.foldl addPayout (addPayout acc p) = acc ++ p :: rest
    have hp : p.1 ∉ acc.map (fun q => q.1) := by
      have h2 := hnd
      rw [List.map_append] at h2
      have hd := (List.nodup_append.mp h2).2.2
      intro hmem
      exact hd hmem (by simp)
    rw [addPayout_not_mem acc p hp, ih (acc ++ [p]) (by simpa using hnd)]
    simp

/-- A seat winning both boards is paid the entire pot in one merged
entry. -/
theorem endOfHandPayout_single (w pot : Nat) : endOfHandPayout [w] [w] pot = [(w, pot)] := by
  show (distrib [w] ((pot - pot / 2) / 1) ((pot - pot / 2) % 1) ++
      distrib [w] ((pot / 2) / 1) ((pot / 2) % 1)).foldl addPayout [] = [(w, pot)]
  rw [Nat.div_one, Nat.mod_one, Nat.div_one, Nat.mod_one]
  show addPayout [(w, pot - pot / 2)] (w, pot / 2) = [(w, pot)]
  unfold addPayout
  rw [if_pos rfl]
  show [(w, pot - pot / 2 + pot / 2)] = [(w, pot)]
  have hp : pot - pot / 2 + pot / 2 = pot := by omega
  rw [hp]

/-- With a single active hand, that seat wins the board outright. -/
theorem boardWinners_single (rank : List Nat → List Nat → Nat) (h : Nat × List Nat)
    (b : List Nat) : boardWinners rank [h] b = [h.1] := by
  simp [boardWinners, bestRank]

/-- Filtering away a fresh id keeps a table unchanged. -/
theorem filter_ne_id_self {A : Type} (gid : Nat) (l : List (Nat × A))
    (h : ∀ row ∈ l, row.1 ≠ gid) : l.filter (fun row => row.1 != gid) = l := by
  apply List.filter_eq_self.mpr
  intro a ha
  simpa [bne_iff_ne] using h a ha

/-- Filtering away the id of freshly inserted rows removes them all. -/
theorem filter_ne_id_nil {A : Type} (gid : Nat) (l : List (Nat × A))
    (h : ∀ row ∈ l, row.1 = gid) : l.filter (fun row => row.1 != gid) = [] := by
  rw [List.filter_eq_nil_iff]
  intro a ha
  simpa [bne_iff_ne] using h a ha

/-- The seats of an even split are exactly the winner list. -/
theorem splitAmong_fst (winners : List Nat) (amt : Nat) :
    (splitAmong winners amt).map (fun p => p.1) = winners :=
  distrib_fst winners _ _

/-- With a single active hand, the showdown evaluator reports that seat as
the winner of both boards. -/
theorem determineDoubleBoardWinners_single (rank : List Nat → List Nat → Nat)
    (h : Nat × List Nat) (b1 b2 : List Nat) :
    determineDoubleBoardWinners rank [h] b1 b2 = ([h.1], [h.1]) := by
  unfold determineDoubleBoardWinners
  rw [boardWinners_single, boardWinners_single]

/-- C1: chip conservation.  For every hand dealt from any room
configuration and any sequence of accepted actions, at every point the sum
of the seated stacks plus the pot equals the sum of the stacks at hand
start plus the forced bets (which the dealt pot equals, and which together
equal the pre-deal stacks); engine steps never increase any stack (stacks
decrease only by wagers) and crediting payouts never decreases any stack
(stacks increase only by payouts). -/
theorem chip_conservation_c1 (cfg : Cfg) (hnd : cfg.seats.Nodup) (ps0 : Nat → PlayerSt)
    (seedOpt : Option Nat) (d : DealOk) (hdeal : dealHand cfg ps0 seedOpt = .ok d) :
    (∀ reqs : List ActReq,
      chipTotal cfg
        (applyActions cfg d.fb1 d.fb2 { ps := d.ps, hand := d.hand, finished := false } reqs).ps
        (applyActions cfg d.fb1 d.fb2 { ps := d.ps, hand := d.hand, finished := false } reqs).hand
        = stackSum cfg d.ps + d.forced) ∧
    d.hand.pot = d.forced ∧
    stackSum cfg d.ps + d.forced = stackSum cfg ps0 ∧
    (∀ (st : EngSt) (r : ActReq) (s : Nat),
      ((engineStep cfg d.fb1 d.fb2 st r).ps s).stack ≤ (st.ps s).stack) ∧
    (∀ (ps : Nat → PlayerSt) (pays : List (Nat × Nat)) (s : Nat),
      (ps s).stack ≤ (creditPayouts ps pays s).stack) := by
  obtain ⟨hcons, hpot⟩ := dealHand_conservation cfg hnd ps0 seedOpt d hdeal
  refine ⟨?_, hpot, hcons, ?_, ?_⟩
  · intro reqs
    rw [applyActions_chipTotal cfg hnd d.fb1 d.fb2 reqs
      { ps := d.ps, hand := d.hand, finished := false }]
    show stackSum cfg d.ps + d.hand.pot = stackSum cfg d.ps + d.forced
    rw [hpot]
  · intro st r s
    exact engineStep_stack_le cfg d.fb1 d.fb2 st r s
  · intro ps pays s
    exact creditPayouts_stack_le pays ps s

/-- Witness for C1: the demo room deal satisfies the hypotheses, and the
chip total after a concrete call equals the dealt stacks plus the forced
bets. -/
theorem chip_conservation_c1_witness :
    chipTotal demoCfg
      (applyActions demoCfg demoDeal.fb1 demoDeal.fb2
        { ps := demoDeal.ps, hand := demoDeal.hand, finished := false } [demoCallReq]).ps
      (applyActions demoCfg demoDeal.fb1 demoDeal.fb2
        { ps := demoDeal.ps, hand := demoDeal.hand, finished := false } [demoCallReq]).hand
      = stackSum demoCfg demoDeal.ps + demoDeal.forced :=
  (chip_conservation_c1 demoCfg (by decide) demoPs0 (some 7) demoDeal rfl).1 [demoCallReq]

/-- C2: payout conservation.  For every pair of nonempty winner sets and
every pot amount, the seat-to-amount mapping returned by endOfHandPayout
sums exactly to the pot awarded. -/
theorem payout_conservation_c2 (w1 w2 : List Nat) (pot : Nat) (h1 : w1 ≠ []) (h2 : w2 ≠ []) :
    ((endOfHandPayout w1 w2 pot).map (fun p => p.2)).sum = pot := by
  unfold endOfHandPayout
  rw [foldl_addPayout_sum, List.map_append, List.sum_append,
    splitAmong_sum w1 _ h1, splitAmong_sum w2 _ h2]
  simp only [List.map_nil, List.sum_nil, Nat.zero_add]
  omega

/-- Witness for C2 at the spec example: sole winner seat 2, pot 30, payout
total 30. -/
theorem payout_conservation_c2_witness :
    ((endOfHandPayout [2] [2] 30).map (fun p => p.2)).sum = 30 :=
  payout_conservation_c2 [2] [2] 30 (by decide) (by decide)

/-- C7: double-board split.  With sole winner a on board 1, sole winner b
on board 2 and an even pot P, the payout is P/2 to a and P/2 to b; with a
tie on board 1, that board half is split evenly among the tied winners,
each receiving the even share or one odd chip more, the half distributed
exactly. -/
theorem double_board_split_c7 :
    (∀ (a b P : Nat), a ≠ b → P % 2 = 0 →
      endOfHandPayout [a] [b] P = [(a, P / 2), (b, P / 2)]) ∧
    (∀ (ws : List Nat) (b P : Nat), ws ≠ [] → ws.Nodup → b ∉ ws →
      endOfHandPayout ws [b] P = splitAmong ws (P - P / 2) ++ [(b, P / 2)] ∧
      ((splitAmong ws (P - P / 2)).map (fun p => p.2)).sum = P - P / 2 ∧
      (∀ p ∈ splitAmong ws (P - P / 2),
        p.2 = (P - P / 2) / ws.length ∨ p.2 = (P - P / 2) / ws.length + 1)) := by
  constructor
  · intro a b P hab hP
    show (distrib [a] ((P - P / 2) / 1) ((P - P / 2) % 1) ++
        distrib [b] ((P / 2) / 1) ((P / 2) % 1)).foldl addPayout [] = _
    rw [Nat.div_one, Nat.mod_one, Nat.div_one, Nat.mod_one]
    show addPayout [(a, P - P / 2)] (b, P / 2) = _
    rw [addPayout_not_mem [(a, P - P / 2)] (b, P / 2) (by
      intro hmem
      simp only [List.map_cons, List.map_nil, List.mem_singleton] at hmem
      exact hab hmem.symm)]
    have h12 : P - P / 2 = P / 2 := by omega
    rw [h12]
    rfl
  · intro ws b P hne hnd hb
    have hsplit2 : splitAmong [b] (P / 2) = [(b, P / 2)] := by
      show distrib [b] ((P / 2) / 1) ((P / 2) % 1) = _
      rw [Nat.div_one, Nat.mod_one]
      rfl
    have hkeys : ((([] : List (Nat × Nat)) ++
        (splitAmong ws (P - P / 2) ++ [(b, P / 2)])).map (fun q => q.1)).Nodup := by
      simp only [List.nil_append, List.map_append, splitAmong_fst, List.map_cons, List.map_nil]
      refine List.Nodup.append hnd (List.nodup_singleton b) ?_
      intro x hx hxb
      rw [List.mem_singleton] at hxb
      exact hb (hxb ▸ hx)
    have heq : endOfHandPayout ws [b] P = splitAmong ws (P - P / 2) ++ [(b, P / 2)] := by
      unfold endOfHandPayout
      rw [hsplit2]
      have h3 := foldl_addPayout_nodup (splitAmong ws (P - P / 2) ++ [(b, P / 2)]) [] hkeys
      simpa using h3
    refine ⟨heq, splitAmong_sum ws _ hne, ?_⟩
    intro p hp
    exact distrib_amounts ws ((P - P / 2) / ws.length) ((P - P / 2) % ws.length) p hp

/-- Witness for C7: an even pot splits 5 and 5 between two sole winners,
and a two-way tie on board 1 of a pot of 9 takes the 5-chip half. -/
theorem double_board_split_c7_witness :
    endOfHandPayout [0] [1] 10 = [(0, 10 / 2), (1, 10 / 2)] ∧
    endOfHandPayout [2, 3] [4] 9 = splitAmong [2, 3] (9 - 9 / 2) ++ [(4, 9 / 2)] :=
  ⟨double_board_split_c7.1 0 1 10 (by decide) (by decide),
   (double_board_split_c7.2 [2, 3] 4 9 (by decide) (by decide) (by decide)).1⟩

/-- C3 counterexample: in the demo hand, a fold that leaves a single
non-folded seat completes the hand, yet the actions route still invokes
the winner-determination (hand evaluation) step, contradicting the claim
that evaluation is not invoked at all in the fold-out case. -/
theorem foldout_evaluation_invoked_c3_cex :
    (activeSeats demoCfg demoFoldRes.db.ps).length = 1 ∧
    demoFoldRes.error = none ∧
    demoFoldRes.usedEvaluator = true := by decide

/-- C3 amended: whenever all but one player have folded, the hand
completes immediately and the sole remaining non-folded seat is credited
the entire pot; however the completion path of the actions route still
invokes the winner-determination (evaluation) step, on the sole remaining
hand, rather than skipping it. -/
theorem foldout_award_c3_amended (cfg : Cfg) (rank : List Nat → List Nat → Nat)
    (db : DB) (r : ActReq) (hand : HandSt) (sec : Nat × List Nat × List Nat)
    (ws cs : List Nat) (pot w : Nat)
    (hgs : db.gameState = some hand) (hsec : db.secret = some sec)
    (herr : (applyAction cfg sec.2.1 sec.2.2 db.ps hand r.seat r.act r.amt).error = none)
    (hc : (applyAction cfg sec.2.1 sec.2.2 db.ps hand r.seat r.act r.amt).handCompleted = true)
    (hw : (applyAction cfg sec.2.1 sec.2.2 db.ps hand r.seat r.act r.amt).autoWinners = some ws)
    (hp : (applyAction cfg sec.2.1 sec.2.2 db.ps hand r.seat r.act r.amt).potAwarded = some pot)
    (hpne : pot ≠ 0)
    (hah : activeHandsOf cfg
      (applyAction cfg sec.2.1 sec.2.2 db.ps hand r.seat r.act r.amt).players
      db.playerHands = [(w, cs)]) :
    (actionsRoute cfg rank db r).usedEvaluator = true ∧
    ((actionsRoute cfg rank db r).db.ps w).stack
      = ((applyAction cfg sec.2.1 sec.2.2 db.ps hand r.seat r.act r.amt).players w).stack
        + pot ∧
    (∀ s, s ≠ w → (actionsRoute cfg rank db r).db.ps s
      = (applyAction cfg sec.2.1 sec.2.2 db.ps hand r.seat r.act r.amt).players s) ∧
    (actionsRoute cfg rank db r).db.gameState = none := by
  simp only [actionsRoute, hgs, hsec, herr, hc, hw, hp, hpne, hah,
    determineDoubleBoardWinners_single, endOfHandPayout_single, creditPayouts,
    List.foldl_cons, List.foldl_nil, ne_eq, not_false_eq_true, if_true, ite_true]
  refine ⟨?_, ?_, ?_, ?_⟩ <;>
    first
    | trivial
    | (intro s hs; simp [hs])

/-- Witness for the amended C3 at the demo fold-out: evaluation runs and
the surviving seat 0 is credited the 3-chip pot. -/
theorem foldout_award_c3_witness :
    (actionsRoute demoCfg demoRank demoDB demoFoldReq).usedEvaluator = true ∧
    ((actionsRoute demoCfg demoRank demoDB demoFoldReq).db.ps 0).stack
      = ((applyAction demoCfg (demoDeal.seed, demoDeal.fb1, demoDeal.fb2).2.1
          (demoDeal.seed, demoDeal.fb1, demoDeal.fb2).2.2 demoDB.ps demoDeal.hand
          demoFoldReq.seat demoFoldReq.act demoFoldReq.amt).players 0).stack + 3 ∧
    (∀ s, s ≠ 0 → (actionsRoute demoCfg demoRank demoDB demoFoldReq).db.ps s
      = (applyAction demoCfg (demoDeal.seed, demoDeal.fb1, demoDeal.fb2).2.1
          (demoDeal.seed, demoDeal.fb1, demoDeal.fb2).2.2 demoDB.ps demoDeal.hand
          demoFoldReq.seat demoFoldReq.act demoFoldReq.amt).players s) ∧
    (actionsRoute demoCfg demoRank demoDB demoFoldReq).db.gameState = none :=
  foldout_award_c3_amended demoCfg demoRank demoDB demoFoldReq demoDeal.hand
    (demoDeal.seed, demoDeal.fb1, demoDeal.fb2) [0] [7, 8] 3 0
    rfl rfl (by decide) (by decide) (by decide) (by decide) (by decide) (by decide)

/-- C4: the actionSchema of the actions route accepts an idempotency key,
but the handler never consults it: resubmitting the identical request
(same key) after it was accepted is processed from scratch, yielding a
different outcome (an OutOfTurn rejection here) and appending a second
row to the request log, instead of returning the original outcome as a
no-op repeat. -/
theorem idempotency_ignored_c4 :
    demoCallOnce.error = none ∧
    demoCallTwice.error = some (.engine .outOfTurn) ∧
    demoCallOnce.db.actionLog.length = 1 ∧
    demoCallTwice.db.actionLog.length = 2 := by decide

/-- C6: rejected-action atomicity.  Whenever the engine rejects an action
with any validation error, the actions route leaves the player rows, the
game-state row, the hole-card rows and the hand results untouched, fails
the request and surfaces the engine error to the caller. -/
theorem rejected_action_atomic_c6 (cfg : Cfg) (rank : List Nat → List Nat → Nat) (db : DB)
    (r : ActReq) (hand : HandSt) (sec : Nat × List Nat × List Nat) (e : EngineErr)
    (hgs : db.gameState = some hand) (hsec : db.secret = some sec)
    (herr : (applyAction cfg sec.2.1 sec.2.2 db.ps hand r.seat r.act r.amt).error = some e) :
    (actionsRoute cfg rank db r).db.ps = db.ps ∧
    (actionsRoute cfg rank db r).db.gameState = db.gameState ∧
    (actionsRoute cfg rank db r).db.playerHands = db.playerHands ∧
    (actionsRoute cfg rank db r).db.handResults = db.handResults ∧
    (actionsRoute cfg rank db r).ok = false ∧
    (actionsRoute cfg rank db r).error = some (.engine e) := by
  simp only [actionsRoute, hgs, hsec, herr]
  refine ⟨?_, ?_, ?_, ?_, ?_, ?_⟩ <;> trivial

/-- Witness for C6 at a concrete out-of-turn check by the big blind while
the small blind is to act. -/
theorem rejected_action_atomic_c6_witness :
    (actionsRoute demoCfg demoRank demoDB demoOutOfTurnReq).db.ps = demoDB.ps ∧
    (actionsRoute demoCfg demoRank demoDB demoOutOfTurnReq).db.gameState
      = demoDB.gameState ∧
    (actionsRoute demoCfg demoRank demoDB demoOutOfTurnReq).db.playerHands
      = demoDB.playerHands ∧
    (actionsRoute demoCfg demoRank demoDB demoOutOfTurnReq).db.handResults
      = demoDB.handResults ∧
    (actionsRoute demoCfg demoRank demoDB demoOutOfTurnReq).ok = false ∧
    (actionsRoute demoCfg demoRank demoDB demoOutOfTurnReq).error
      = some (.engine .outOfTurn) :=
  rejected_action_atomic_c6 demoCfg demoRank demoDB demoOutOfTurnReq demoDeal.hand
    (demoDeal.seed, demoDeal.fb1, demoDeal.fb2) .outOfTurn rfl rfl (by decide)

/-- C9: the hand-state row as the no-active-hand signal.  An action
submitted while no game-state row exists is rejected with the
no-active-hand error and changes nothing; an accepted action that
completes the hand leaves no game-state row behind. -/
theorem handstate_lifecycle_c9 :
    (∀ (cfg : Cfg) (rank : List Nat → List Nat → Nat) (db : DB) (r : ActReq),
      db.gameState = none →
      actionsRoute cfg rank db r
        = { db := db, ok := false, error := some .noActiveHand, usedEvaluator := false }) ∧
    (∀ (cfg : Cfg) (rank : List Nat → List Nat → Nat) (db : DB) (r : ActReq)
        (hand : HandSt) (sec : Nat × List Nat × List Nat),
      db.gameState = some hand → db.secret = some sec →
      (applyAction cfg sec.2.1 sec.2.2 db.ps hand r.seat r.act r.amt).error = none →
      (applyAction cfg sec.2.1 sec.2.2 db.ps hand r.seat r.act r.amt).handCompleted = true →
      (actionsRoute cfg rank db r).db.gameState = none) := by
  constructor
  · intro cfg rank db r h
    simp only [actionsRoute, h]
  · intro cfg rank db r hand sec hgs hsec herr hc
    simp only [actionsRoute, hgs, hsec, herr, hc, if_true, ite_true]
    split
    all_goals try split
    all_goals rfl

/-- Witness for C9: a request against a room with no game-state row is
rejected unchanged, and the demo fold-out deletes the game-state row. -/
theorem handstate_lifecycle_c9_witness :
    actionsRoute demoCfg demoRank { demoDB with gameState := none } demoCallReq
      = { db := { demoDB with gameState := none }, ok := false,
          error := some .noActiveHand, usedEvaluator := false } ∧
    (actionsRoute demoCfg demoRank demoDB demoFoldReq).db.gameState = none :=
  ⟨handstate_lifecycle_c9.1 demoCfg demoRank { demoDB with gameState := none } demoCallReq
      rfl,
   handstate_lifecycle_c9.2 demoCfg demoRank demoDB demoFoldReq demoDeal.hand
      (demoDeal.seed, demoDeal.fb1, demoDeal.fb2) rfl rfl (by decide) (by decide)⟩

/-- C5: deal atomicity.  If any storage step of the start-hand route
fails — at the game-state insert or at any step after the game-state row
was created (secret insert, hole-card insert, player upsert) — the created
game-state, secrets and hole-card rows are rolled back, the player rows
stay untouched and the deal fails, so no half-created hand persists. -/
theorem deal_rollback_c5 (cfg : Cfg) (db : DealDB) (seedOpt : Option Nat) (step : DealStep)
    (d : DealOk) (hdeal : dealHand cfg db.ps seedOpt = .ok d)
    (hf1 : ∀ row ∈ db.gameStates, row.1 ≠ db.nextId)
    (hf2 : ∀ row ∈ db.secrets, row.1 ≠ db.nextId)
    (hf3 : ∀ row ∈ db.handRows, row.1 ≠ db.nextId) :
    (startHandRoute cfg db seedOpt (some step)).db.gameStates = db.gameStates ∧
    (startHandRoute cfg db seedOpt (some step)).db.secrets = db.secrets ∧
    (startHandRoute cfg db seedOpt (some step)).db.handRows = db.handRows ∧
    (startHandRoute cfg db seedOpt (some step)).db.ps = db.ps ∧
    (startHandRoute cfg db seedOpt (some step)).failed = true ∧
    (startHandRoute cfg db seedOpt (some step)).resBody = none := by
  have hg : db.gameStates.filter (fun row => row.1 != db.nextId) = db.gameStates :=
    filter_ne_id_self db.nextId db.gameStates hf1
  have hs : db.secrets.filter (fun row => row.1 != db.nextId) = db.secrets :=
    filter_ne_id_self db.nextId db.secrets hf2
  have hh : db.handRows.filter (fun row => row.1 != db.nextId) = db.handRows :=
    filter_ne_id_self db.nextId db.handRows hf3
  have hmap : (d.holeCards.map (fun h => (db.nextId, h.1, h.2))).filter
      (fun row => row.1 != db.nextId) = [] := by
    apply filter_ne_id_nil
    intro row hrow
    rcases List.mem_map.mp hrow with ⟨x, _, hx⟩
    rw [← hx]
  cases step with
  | atState => simp [startHandRoute, hdeal]
  | atSecret => simp [startHandRoute, hdeal, rollbackDeal, hg, hs, hh]
  | atHands => simp [startHandRoute, hdeal, rollbackDeal, hg, hs, hh]
  | atPlayers =>
    simp [startHandRoute, hdeal, rollbackDeal, hg, hs, hh, hmap, List.filter_append]

/-- Witness for C5: a failing secrets insert on the demo room rolls the
created rows back and fails the deal. -/
theorem deal_rollback_c5_witness :
    (startHandRoute demoCfg demoDealDB (some 7) (some .atSecret)).db.gameStates
      = demoDealDB.gameStates ∧
    (startHandRoute demoCfg demoDealDB (some 7) (some .atSecret)).db.secrets
      = demoDealDB.secrets ∧
    (startHandRoute demoCfg demoDealDB (some 7) (some .atSecret)).db.handRows
      = demoDealDB.handRows ∧
    (startHandRoute demoCfg demoDealDB (some 7) (some .atSecret)).db.ps = demoDealDB.ps ∧
    (startHandRoute demoCfg demoDealDB (some 7) (some .atSecret)).failed = true ∧
    (startHandRoute demoCfg demoDealDB (some 7) (some .atSecret)).resBody = none :=
  deal_rollback_c5 demoCfg demoDealDB (some 7) .atSecret demoDeal rfl
    (by intro row hrow; cases hrow) (by intro row hrow; cases hrow)
    (by intro row hrow; cases hrow)

/-- C8: the start-hand route of apps/engine/src/index.ts serializes the
deck seed of the HandSecret into its 201 response body, the same seed
stored in the secrets row, so the secret seed does reach the
player-facing HTTP caller (contradicting the confinement claim). -/
theorem seed_serialized_c8 :
    (startHandRoute demoCfg demoDealDB (some 7) none).resBody = some (0, 7) ∧
    ((startHandRoute demoCfg demoDealDB (some 7) none).db.secrets.map
      (fun row => row.2.1)) = [7] := by decide

/-- C10: Indian-poker visibility.  For a visibility request by an
authenticated, seated, non-spectating player who is in the hand, the route
serves the projection of get_indian_poker_visible_cards: it contains no
entry for the requesting seat and one entry (the first stored card) for
every other seat in the hand; requests from unauthenticated users,
spectators, seat mismatches or players without a hand row are rejected
with responses that carry no cards. -/
theorem indian_poker_visibility_c10 :
    (∀ (c : VisCtx) (u seat : Nat),
      c.user = some u → c.gameMode = .indianPoker → c.playerRow = some (seat, false) →
      (c.seatParam = none ∨ c.seatParam = some seat) → c.myHandRow = true →
      indianPokerCardsRoute c = .ok (get_indian_poker_visible_cards c.hands seat) ∧
      (∀ p ∈ get_indian_poker_visible_cards c.hands seat, p.1 ≠ seat) ∧
      (∀ t cs, (t, cs) ∈ c.hands → t ≠ seat →
        (t, cs.head?) ∈ get_indian_poker_visible_cards c.hands seat)) ∧
    (∀ c : VisCtx, c.user = none → indianPokerCardsRoute c = .unauthorized) ∧
    (∀ (c : VisCtx) (u seat : Nat), c.user = some u → c.playerRow = some (seat, true) →
      indianPokerCardsRoute c = .forbidden) ∧
    (∀ (c : VisCtx) (u seat q : Nat), c.user = some u → c.gameMode = .indianPoker →
      c.playerRow = some (seat, false) → c.seatParam = some q → q ≠ seat →
      indianPokerCardsRoute c = .forbidden) ∧
    (∀ (c : VisCtx) (u seat : Nat), c.user = some u → c.gameMode = .indianPoker →
      c.playerRow = some (seat, false) → (c.seatParam = none ∨ c.seatParam = some seat) →
      c.myHandRow = false → indianPokerCardsRoute c = .forbidden) := by
  refine ⟨?_, ?_, ?_, ?_, ?_⟩
  · intro c u seat hu hm hrow hsp hh
    have hroute : indianPokerCardsRoute c
        = .ok (get_indian_poker_visible_cards c.hands seat) := by
      rcases hsp with h | h <;> simp [indianPokerCardsRoute, hu, hm, hrow, h, hh]
    refine ⟨hroute, ?_, ?_⟩
    · intro p hp
      rcases List.mem_map.mp hp with ⟨x, hx, hpx⟩
      have hxf := (List.mem_filter.mp hx).2
      rw [← hpx]
      simpa [bne_iff_ne] using hxf
    · intro t cs hmem hne2
      apply List.mem_map.mpr
      refine ⟨(t, cs), List.mem_filter.mpr ⟨hmem, ?_⟩, rfl⟩
      simpa [bne_iff_ne] using hne2
  · intro c hu
    simp [indianPokerCardsRoute, hu]
  · intro c u seat hu hrow
    by_cases hm : c.gameMode = GameMode.indianPoker <;>
      simp [indianPokerCardsRoute, hu, hm, hrow]
  · intro c u seat q hu hm hrow hq hqs
    simp [indianPokerCardsRoute, hu, hm, hrow, hq, hqs]
  · intro c u seat hu hm hrow hsp hh
    rcases hsp with h | h <;> simp [indianPokerCardsRoute, hu, hm, hrow, h, hh]

/-- Witness for C10: the seat-1 player of a three-handed demo hand is
served exactly the other seats and never its own card. -/
theorem indian_poker_visibility_c10_witness :
    indianPokerCardsRoute demoVisCtx
      = .ok (get_indian_poker_visible_cards demoVisCtx.hands 1) ∧
    (∀ p ∈ get_indian_poker_visible_cards demoVisCtx.hands 1, p.1 ≠ 1) ∧
    (∀ t cs, (t, cs) ∈ demoVisCtx.hands → t ≠ 1 →
      (t, cs.head?) ∈ get_indian_poker_visible_cards demoVisCtx.hands 1) :=
  indian_poker_visibility_c10.1 demoVisCtx 9 1 rfl rfl rfl (Or.inr rfl) rfl

end DegenPoker
